import Mathlib

/-!
# Verification of the urban-flow traffic simulation core

Shallow embedding of the `urban_flow` Python package (signal plans and
fixed-time controllers, roads and vehicles, the emergency preemption
manager, and the road-network BFS router), together with proofs settling
the specification claims about these components.

Conventions used throughout the embedding:
* Python `int` is modelled as `Int` (arbitrary precision in both).
* Python `%` on integers is modelled by `Int.fmod`, which agrees with
  Python's sign-of-divisor semantics.
* Python code that can raise is modelled with `Except String`; the string
  carries the exception message.
* Python `dict`s are modelled as association lists with unique keys kept
  in insertion order (matching CPython's ordered dicts); Python `set`s,
  of which only membership and insertion are used, are modelled as lists.
* Python `float` division (`/`) is modelled over `Rat`; the claims proved
  about it (totality, zero-guard, bounds) are preserved by this reading.
-/

/-! ## Core shared types (`urban_flow/core/types.py`) -/

/-- Cardinal direction a vehicle can travel or a signal can face. -/
inductive Direction where
  | NORTH
  | SOUTH
  | EAST
  | WEST
deriving DecidableEq, Repr, Fintype

/-- Possible states of a traffic signal. -/
inductive SignalState where
  | RED
  | YELLOW
  | GREEN
deriving DecidableEq, Repr

/-- Classification of vehicles in the simulation. -/
inductive VehicleType where
  | CAR
  | EMERGENCY
deriving DecidableEq, Repr

/-- Grid coordinate of an intersection (row, col). -/
structure Position where
  row : Int
  col : Int
deriving DecidableEq, Repr

abbrev IntersectionId := String
abbrev RoadId := String
abbrev VehicleId := String
abbrev Tick := Int

/-! ## Intersection (`urban_flow/core/intersection.py`)

`signal_states` is a Python dict keyed by `Direction`; after
`__post_init__` it always holds exactly one entry per direction, so it is
modelled as a total function `Direction → SignalState`. -/

structure Intersection where
  intersection_id : IntersectionId
  position : Position
  incoming_roads : List (Direction × RoadId) := []
  outgoing_roads : List (Direction × RoadId) := []
  signal_states : Direction → SignalState := fun _ => SignalState.RED
deriving DecidableEq

/-- `Intersection.set_signal`. -/
def Intersection.set_signal (i : Intersection) (direction : Direction)
    (state : SignalState) : Intersection :=
  { i with signal_states := fun d => if d = direction then state else i.signal_states d }

/-- `Intersection.set_all_red`: the Python loop sets every direction RED. -/
def Intersection.set_all_red (i : Intersection) : Intersection :=
  { i with signal_states := fun _ => SignalState.RED }

/-- `Intersection.is_green`. -/
def Intersection.is_green (i : Intersection) (direction : Direction) : Bool :=
  i.signal_states direction = SignalState.GREEN

/-! ## Signal phases and plans (`urban_flow/core/signal.py`) -/

/-- One phase in a signal cycle: the green-direction set, a duration in
ticks, and the state (GREEN or YELLOW in intended use) applied to the
green directions.  `green_directions` is a Python `frozenset`. -/
structure SignalPhase where
  green_directions : Finset Direction
  duration : Int
  state : SignalState := SignalState.GREEN
deriving DecidableEq

/-- `SignalPhase.applies_to`. -/
def SignalPhase.applies_to (p : SignalPhase) (direction : Direction) : Bool :=
  direction ∈ p.green_directions

/-- A full signal cycle: an ordered list of phases. -/
structure SignalPlan where
  phases : List SignalPhase := []
deriving DecidableEq

/-- `SignalPlan.cycle_length`: total ticks for one complete cycle. -/
def SignalPlan.cycle_length (plan : SignalPlan) : Int :=
  (plan.phases.map SignalPhase.duration).sum

/-- The `for phase in self.phases` loop of `phase_at_tick`: accumulate
`elapsed += phase.duration` and return the first phase with
`offset < elapsed`; `none` when the loop falls through. -/
def phaseAtLoop (offset : Int) : List SignalPhase → Int → Option SignalPhase
  | [], _ => none
  | phase :: rest, elapsed =>
    let elapsed' := elapsed + phase.duration
    if offset < elapsed' then some phase else phaseAtLoop offset rest elapsed'

/-- `SignalPlan.phase_at_tick`.  The Python method raises `ValueError` on
an empty phase list and `ZeroDivisionError` (from `tick %
self.cycle_length`) when the cycle length is zero; both are modelled as
`Except.error`.  The final `return self.phases[-1]` is the fall-through
of the loop. -/
def SignalPlan.phase_at_tick (plan : SignalPlan) (tick : Tick) :
    Except String SignalPhase :=
  if h : plan.phases = [] then .error "SignalPlan has no phases"
  else if plan.cycle_length = 0 then
    .error "integer division or modulo by zero"
  else
    let offset := Int.fmod tick plan.cycle_length
    match phaseAtLoop offset plan.phases 0 with
    | some phase => .ok phase
    | none => .ok (plan.phases.getLast h)

/-- Construction of a `SignalPlan`: the dataclass `__init__` performs no
validation, so it never fails (it is written with `Except` to make the
absence of a construction-time rejection explicit). -/
def mkSignalPlan (phases : List SignalPhase) : Except String SignalPlan :=
  .ok { phases := phases }

/-! ## Fixed-time controller (`urban_flow/signals/fixed_time.py`) -/

structure FixedTimeController where
  plan : SignalPlan
  preemption_active : Bool := false
  preemption_direction : Option Direction := none
deriving DecidableEq

/-- `FixedTimeController(plan=...)` with the dataclass defaults for the
private preemption fields. -/
def mkFixedTimeController (plan : SignalPlan) : FixedTimeController :=
  { plan := plan }

/-- `FixedTimeController._apply_phase`: `set_all_red`, then set each green
direction to the phase's state.  The Python loop over the frozenset is
order-independent, so it denotes this pointwise update. -/
def FixedTimeController.apply_phase (i : Intersection) (phase : SignalPhase) :
    Intersection :=
  { i.set_all_red with
    signal_states := fun d =>
      if d ∈ phase.green_directions then phase.state else SignalState.RED }

/-- `FixedTimeController._apply_preemption`: all red except the preemption
direction, which is forced GREEN; returns the synthetic preemption phase. -/
def FixedTimeController.apply_preemption (i : Intersection) (d : Direction) :
    SignalPhase × Intersection :=
  (⟨{d}, 0, SignalState.GREEN⟩,
   (i.set_all_red).set_signal d SignalState.GREEN)

/-- `FixedTimeController.update`: preemption override when
`_preemption_active and _preemption_direction is not None`, otherwise
plan lookup followed by `_apply_phase`.  A raised exception from
`phase_at_tick` propagates (the intersection is left untouched). -/
def FixedTimeController.update (c : FixedTimeController) (i : Intersection)
    (tick : Tick) : Except String (SignalPhase × Intersection) :=
  match c.preemption_active, c.preemption_direction with
  | true, some d => .ok (FixedTimeController.apply_preemption i d)
  | _, _ =>
    match c.plan.phase_at_tick tick with
    | .error e => .error e
    | .ok phase => .ok (phase, FixedTimeController.apply_phase i phase)

/-- `FixedTimeController.request_preemption`. -/
def FixedTimeController.request_preemption (c : FixedTimeController)
    (direction : Direction) : FixedTimeController :=
  { c with preemption_active := true, preemption_direction := some direction }

/-- `FixedTimeController.release_preemption`. -/
def FixedTimeController.release_preemption (c : FixedTimeController) :
    FixedTimeController :=
  { c with preemption_active := false, preemption_direction := none }

/-! ## Vehicles (`urban_flow/core/vehicle.py`) -/

/-- A regular vehicle navigating from origin to destination, with the
runtime fields mutated by the engine. -/
structure Vehicle where
  vehicle_id : VehicleId
  origin : IntersectionId
  destination : IntersectionId
  vehicle_type : VehicleType := VehicleType.CAR
  current_road : Option RoadId := none
  current_cell : Int := 0
  spawn_tick : Tick := 0
  arrived : Bool := false
  wait_ticks : Int := 0
deriving DecidableEq

/-- `Vehicle.is_emergency`. -/
def Vehicle.is_emergency (v : Vehicle) : Bool :=
  v.vehicle_type = VehicleType.EMERGENCY

/-- An emergency vehicle (the Python subclass): all `Vehicle` fields plus
route metadata.  `route_index` starts at 0 and is only ever incremented,
so it is modelled as `Nat`. -/
structure EmergencyVehicle where
  vehicle_id : VehicleId
  origin : IntersectionId
  destination : IntersectionId
  vehicle_type : VehicleType := VehicleType.EMERGENCY
  current_road : Option RoadId := none
  current_cell : Int := 0
  spawn_tick : Tick := 0
  arrived : Bool := false
  wait_ticks : Int := 0
  route : List IntersectionId := []
  preemption_lookahead : Int := 2
  route_index : Nat := 0
deriving DecidableEq

/-- `EmergencyVehicle.next_intersection`: `route[route_index]` while
`route_index < len(route)`, else `None`. -/
def EmergencyVehicle.next_intersection (v : EmergencyVehicle) :
    Option IntersectionId :=
  if h : v.route_index < v.route.length then
    some (v.route.get ⟨v.route_index, h⟩)
  else
    none

/-- `EmergencyVehicle.advance_route`: `self.route_index += 1`,
unconditionally. -/
def EmergencyVehicle.advance_route (v : EmergencyVehicle) : EmergencyVehicle :=
  { v with route_index := v.route_index + 1 }

/-! ## Roads (`urban_flow/core/road.py`) -/

/-- A single cell on a road: either empty or occupied by one vehicle. -/
structure Cell where
  index : Int
  vehicle : Option Vehicle := none
deriving DecidableEq

/-- `Cell.is_empty`. -/
def Cell.is_empty (c : Cell) : Bool :=
  c.vehicle = none

/-- Directed road segment connecting two intersections. -/
structure Road where
  road_id : RoadId
  from_intersection : IntersectionId
  to_intersection : IntersectionId
  num_cells : Int
  speed_limit : Int := 1
  cells : List Cell := []
deriving DecidableEq

/-- Construction of a `Road`: `__post_init__` fills `cells` from
`range(num_cells)` when the provided list is empty and performs no other
check, so construction never fails (written with `Except` to make the
absence of a construction-time rejection explicit). -/
def mkRoad (road_id : RoadId) (from_intersection to_intersection : IntersectionId)
    (num_cells : Int) (speed_limit : Int := 1) (cells : List Cell := []) :
    Except String Road :=
  .ok { road_id := road_id
        from_intersection := from_intersection
        to_intersection := to_intersection
        num_cells := num_cells
        speed_limit := speed_limit
        cells :=
          if cells = [] then
            (List.range num_cells.toNat).map (fun i => { index := (i : Int) })
          else cells }

/-- Number of occupied cells: `sum(1 for c in self.cells if not c.is_empty)`. -/
def Road.occupied_count (r : Road) : Nat :=
  r.cells.countP (fun c => ¬ c.is_empty)

/-- Python true division, which raises `ZeroDivisionError` on a zero
divisor. -/
def pydiv (a b : Rat) : Except String Rat :=
  if b = 0 then .error "division by zero" else .ok (a / b)

/-- `Road.occupancy`: `0.0` when `num_cells == 0`, else the occupied-cell
count divided by `num_cells`. -/
def Road.occupancy (r : Road) : Except String Rat :=
  if r.num_cells = 0 then .ok 0
  else pydiv (r.occupied_count : Rat) (r.num_cells : Rat)

/-- `Road.is_full`. -/
def Road.is_full (r : Road) : Bool :=
  r.cells.all (fun c => ¬ c.is_empty)

/-! ## Events (`urban_flow/engine/events.py`)

Only the events the preemption manager consumes and produces are needed
by the claims. -/

/-- `EmergencyDetected` event payload. -/
structure EmergencyDetected where
  tick : Tick
  vehicle_id : VehicleId
  intersection_id : IntersectionId
  approach_direction : Direction
  distance_cells : Int
deriving DecidableEq

/-- The events the `PreemptionManager` publishes. -/
inductive SimEvent where
  | PreemptionStarted (tick : Tick) (vehicle_id : VehicleId)
      (intersection_id : IntersectionId) (direction : Direction)
  | PreemptionEnded (tick : Tick) (vehicle_id : VehicleId)
      (intersection_id : IntersectionId)
deriving DecidableEq

/-! ## Python dict operations over association lists -/

/-- `dict.get(k)` / `dict.get(k, None)`: first (unique) matching key. -/
def dictGet {V : Type} (l : List (IntersectionId × V)) (k : IntersectionId) :
    Option V :=
  match l with
  | [] => none
  | (k', v) :: rest => if k' = k then some v else dictGet rest k

/-- `d[k] = v`: overwrite in place when the key exists, else append
(dict insertion order). -/
def dictInsert {V : Type} (l : List (IntersectionId × V)) (k : IntersectionId)
    (v : V) : List (IntersectionId × V) :=
  match l with
  | [] => [(k, v)]
  | (k', v') :: rest =>
    if k' = k then (k', v) :: rest else (k', v') :: dictInsert rest k v

/-- `dict.pop(k, None)`: the removed value (if any) and the remaining
dict. -/
def dictPop {V : Type} (l : List (IntersectionId × V)) (k : IntersectionId) :
    Option V × List (IntersectionId × V) :=
  match l with
  | [] => (none, [])
  | (k', v) :: rest =>
    if k' = k then (some v, rest)
    else
      let r := dictPop rest k
      (r.1, (k', v) :: r.2)

/-! ## Preemption manager (`urban_flow/emergency/preemption.py`) -/

/-- Tracks an active preemption at one intersection. -/
structure ActivePreemption where
  vehicle_id : VehicleId
  intersection_id : IntersectionId
  direction : Direction
deriving DecidableEq

/-- The mutable state of a `PreemptionManager`: its controller registry
(`_controllers`) and the active-preemption map (`_active`).  Controllers
are the `FixedTimeController` implementation of the `SignalController`
protocol; a `request_preemption`/`release_preemption` call mutates the
registered controller in place, modelled by updating the registry entry. -/
structure PreemptionManager where
  controllers : List (IntersectionId × FixedTimeController)
  active : List (IntersectionId × ActivePreemption) := []
deriving DecidableEq

/-- Observable outcome of one manager operation: the new manager state,
the `request_preemption` calls issued, the `release_preemption` calls
issued, and the events published on the bus, each in order. -/
structure ManagerStep where
  manager : PreemptionManager
  requested : List (IntersectionId × Direction) := []
  released : List IntersectionId := []
  published : List SimEvent := []
deriving DecidableEq

/-- `PreemptionManager._on_emergency_detected`: ignore the event when the
intersection is already preempted or its controller is unknown; otherwise
request preemption on the controller, record the `ActivePreemption`
entry, and publish `PreemptionStarted`. -/
def PreemptionManager.on_emergency_detected (m : PreemptionManager)
    (event : EmergencyDetected) : ManagerStep :=
  let iid := event.intersection_id
  match dictGet m.active iid with
  | some _ => { manager := m }
  | none =>
    match dictGet m.controllers iid with
    | none => { manager := m }
    | some controller =>
      { manager :=
          { controllers :=
              dictInsert m.controllers iid
                (controller.request_preemption event.approach_direction)
            active :=
              dictInsert m.active iid
                { vehicle_id := event.vehicle_id
                  intersection_id := iid
                  direction := event.approach_direction } }
        requested := [(iid, event.approach_direction)]
        released := []
        published := [SimEvent.PreemptionStarted event.tick event.vehicle_id
          iid event.approach_direction] }

/-- `PreemptionManager.release`: pop the active entry (a no-op when there
is none), release the controller when it is known, and publish
`PreemptionEnded`. -/
def PreemptionManager.release (m : PreemptionManager)
    (intersection_id : IntersectionId) (tick : Tick) : ManagerStep :=
  match dictPop m.active intersection_id with
  | (none, _) => { manager := m }
  | (some preemption, active') =>
    match dictGet m.controllers intersection_id with
    | none =>
      { manager := { m with active := active' }
        published := [SimEvent.PreemptionEnded tick preemption.vehicle_id
          intersection_id] }
    | some controller =>
      { manager :=
          { controllers :=
              dictInsert m.controllers intersection_id
                controller.release_preemption
            active := active' }
        released := [intersection_id]
        published := [SimEvent.PreemptionEnded tick preemption.vehicle_id
          intersection_id] }

/-! ## Road network (`urban_flow/core/grid.py`)

`_adjacency` maps an intersection id to its ordered list of
`(neighbor_id, road_id)` pairs; the dict and each list preserve insertion
order, which is what makes BFS tie-breaking deterministic. -/

structure RoadNetwork where
  intersections : List (IntersectionId × Intersection) := []
  roads : List (RoadId × Road) := []
  adjacency : List (IntersectionId × List (IntersectionId × RoadId)) := []
deriving DecidableEq

/-- `dict.setdefault(k, [])` on the adjacency dict. -/
def adjEnsureKey (l : List (IntersectionId × List (IntersectionId × RoadId)))
    (k : IntersectionId) : List (IntersectionId × List (IntersectionId × RoadId)) :=
  match l with
  | [] => [(k, [])]
  | (k', v) :: rest =>
    if k' = k then (k', v) :: rest else (k', v) :: adjEnsureKey rest k

/-- `dict.setdefault(k, []).append(v)` on the adjacency dict. -/
def adjAppend (l : List (IntersectionId × List (IntersectionId × RoadId)))
    (k : IntersectionId) (v : IntersectionId × RoadId) :
    List (IntersectionId × List (IntersectionId × RoadId)) :=
  match l with
  | [] => [(k, [v])]
  | (k', vs) :: rest =>
    if k' = k then (k', vs ++ [v]) :: rest else (k', vs) :: adjAppend rest k v

/-- `RoadNetwork.add_intersection`. -/
def RoadNetwork.add_intersection (net : RoadNetwork) (i : Intersection) :
    RoadNetwork :=
  { net with
    intersections := dictInsert net.intersections i.intersection_id i
    adjacency := adjEnsureKey net.adjacency i.intersection_id }

/-- `RoadNetwork.add_road`. -/
def RoadNetwork.add_road (net : RoadNetwork) (road : Road) : RoadNetwork :=
  { net with
    roads := dictInsert net.roads road.road_id road
    adjacency :=
      adjAppend net.adjacency road.from_intersection
        (road.to_intersection, road.road_id) }

/-- `RoadNetwork.neighbors`: ids reachable in one hop, in adjacency-list
order. -/
def RoadNetwork.neighbors (net : RoadNetwork) (intersection_id : IntersectionId) :
    List IntersectionId :=
  ((dictGet net.adjacency intersection_id).getD []).map Prod.fst

/-- `RoadNetwork.road_between`: the road joining two adjacent
intersections, if any. -/
def RoadNetwork.road_between (net : RoadNetwork)
    (from_id to_id : IntersectionId) : Option Road :=
  match ((dictGet net.adjacency from_id).getD []).find?
      (fun nr => nr.1 = to_id) with
  | some nr => dictGet net.roads nr.2
  | none => none

/-- There is a directed road of the network from `a` to `b` (an adjacency
entry, which `add_road` creates exactly when a road is added). -/
def RoadNetwork.edge (net : RoadNetwork) (a b : IntersectionId) : Prop :=
  b ∈ net.neighbors a

instance (net : RoadNetwork) (a b : IntersectionId) :
    Decidable (net.edge a b) := by
  unfold RoadNetwork.edge; infer_instance

/-- Result of scanning the neighbors of one dequeued path: either the
BFS returned a path early (`found`), or the loop finished with the grown
visited set and the new paths appended to the queue (`next`). -/
inductive ScanResult where
  | found (p : List IntersectionId)
  | next (visited : List IntersectionId) (newPaths : List (List IntersectionId))
deriving DecidableEq

/-- The `for neighbor_id in self.neighbors(current)` loop body of
`shortest_path`: skip visited neighbors, return `path + [neighbor]` as
soon as the target is seen, otherwise mark the neighbor visited and queue
the extended path. -/
def scanNeighbors (to_id : IntersectionId) (path : List IntersectionId) :
    List IntersectionId → List IntersectionId → ScanResult
  | [], visited => .next visited []
  | n :: rest, visited =>
    if n ∈ visited then scanNeighbors to_id path rest visited
    else if n = to_id then .found (path ++ [n])
    else
      match scanNeighbors to_id path rest (n :: visited) with
      | .found p => .found p
      | .next v ps => .next v ((path ++ [n]) :: ps)

/-- Every neighbor id appearing anywhere in the adjacency dict; only
such ids are ever added to `visited` after initialisation, which bounds
the BFS loop. -/
def adjTargets (net : RoadNetwork) : List IntersectionId :=
  net.adjacency.flatMap (fun kv => kv.2.map Prod.fst)

theorem mem_dictGet_flatMap
    (l : List (IntersectionId × List (IntersectionId × RoadId)))
    (k x : IntersectionId)
    (hx : x ∈ ((dictGet l k).getD []).map Prod.fst) :
    x ∈ l.flatMap (fun kv => kv.2.map Prod.fst) := by
  induction l with
  | nil => simp [dictGet] at hx
  | cons kv rest ih =>
    obtain ⟨k', vs⟩ := kv
    simp only [dictGet] at hx
    simp only [List.flatMap_cons, List.mem_append]
    by_cases hk : k' = k
    · rw [if_pos hk] at hx
      exact Or.inl hx
    · rw [if_neg hk] at hx
      exact Or.inr (ih hx)

theorem neighbors_subset_adjTargets (net : RoadNetwork)
    (iid : IntersectionId) : ∀ x ∈ net.neighbors iid, x ∈ adjTargets net :=
  fun x hx => mem_dictGet_flatMap net.adjacency iid x hx

/-- Measure bookkeeping for one scan: when the loop finishes without
returning, the count of not-yet-visited candidate nodes drops by exactly
the number of newly queued paths, and `visited` only grows. -/
theorem scanNeighbors_next_measure (to_id : IntersectionId)
    (path : List IntersectionId) (T : Finset IntersectionId) :
    ∀ (ns visited v : List IntersectionId) (ps : List (List IntersectionId)),
      (∀ n ∈ ns, n ∈ T) →
      scanNeighbors to_id path ns visited = .next v ps →
      (T \ v.toFinset).card + ps.length = (T \ visited.toFinset).card ∧
        ∀ x ∈ visited, x ∈ v := by
  intro ns
  induction ns with
  | nil =>
    intro visited v ps _ h
    simp only [scanNeighbors, ScanResult.next.injEq] at h
    obtain ⟨rfl, rfl⟩ := h
    exact ⟨by simp, fun x hx => hx⟩
  | cons n rest ih =>
    intro visited v ps hT h
    simp only [scanNeighbors] at h
    by_cases hv : n ∈ visited
    · rw [if_pos hv] at h
      exact ih visited v ps (fun m hm => hT m (List.mem_cons_of_mem _ hm)) h
    · rw [if_neg hv] at h
      by_cases hto : n = to_id
      · rw [if_pos hto] at h
        cases h
      · rw [if_neg hto] at h
        cases hrec : scanNeighbors to_id path rest (n :: visited) with
        | found p => rw [hrec] at h; cases h
        | next v' ps' =>
          rw [hrec] at h
          simp only [ScanResult.next.injEq] at h
          obtain ⟨rfl, rfl⟩ := h
          obtain ⟨hcard, hmono⟩ :=
            ih (n :: visited) v' ps'
              (fun m hm => hT m (List.mem_cons_of_mem _ hm)) hrec
          have hnT : n ∈ T \ visited.toFinset := by
            simp only [Finset.mem_sdiff, List.mem_toFinset]
            exact ⟨hT n (List.mem_cons_self n rest), hv⟩
          have hins : (n :: visited).toFinset = insert n visited.toFinset := by
            simp
          have herase : T \ (n :: visited).toFinset =
              (T \ visited.toFinset).erase n := by
            rw [hins, Finset.sdiff_insert]
          constructor
          · rw [List.length_cons]
            have : (T \ (n :: visited).toFinset).card =
                (T \ visited.toFinset).card - 1 := by
              rw [herase, Finset.card_erase_of_mem hnT]
            have hpos : 0 < (T \ visited.toFinset).card :=
              Finset.card_pos.mpr ⟨n, hnT⟩
            omega
          · intro x hx
            exact hmono x (List.mem_cons_of_mem _ hx)

/-- The `while queue:` loop of `shortest_path`: dequeue the first path,
scan the neighbors of its last node, and either return the found path,
recurse with the grown queue and visited set, or give up with `[]` when
the queue empties. -/
def bfsLoop (net : RoadNetwork) (to_id : IntersectionId) :
    List (List IntersectionId) → List IntersectionId → List IntersectionId
  | [], _ => []
  | path :: rest, visited =>
    match h : scanNeighbors to_id path
        (net.neighbors (path.getLast?.getD "")) visited with
    | .found p => p
    | .next v ps => bfsLoop net to_id (rest ++ ps) v
termination_by queue visited =>
  ((adjTargets net).toFinset \ visited.toFinset).card + queue.length
decreasing_by
  have := (scanNeighbors_next_measure to_id path (adjTargets net).toFinset
    (net.neighbors (path.getLast?.getD "")) visited v ps
    (fun n hn => List.mem_toFinset.mpr (neighbors_subset_adjTargets net _ n hn))
    h).1
  simp only [List.length_append, List.length_cons]
  omega

/-- `RoadNetwork.shortest_path`: BFS shortest path, `[from_id]` when the
endpoints coincide, `[]` when no path exists. -/
def RoadNetwork.shortest_path (net : RoadNetwork)
    (from_id to_id : IntersectionId) : List IntersectionId :=
  if from_id = to_id then [from_id]
  else bfsLoop net to_id [[from_id]] [from_id]

/-! ## Path predicates for the BFS claims -/

/-- `p` is a directed path of the network from `a` to `b`: it starts at
`a`, ends at `b`, and every consecutive pair of ids is joined by a road
of the network (an adjacency entry). -/
def RoadNetwork.isPath (net : RoadNetwork) (a b : IntersectionId)
    (p : List IntersectionId) : Prop :=
  p.head? = some a ∧ p.getLast? = some b ∧ List.Chain' net.edge p

/-- Some queue path, extended along a further chain `s`, reaches `x`
within a total budget of `m` nodes (proof-internal BFS invariant). -/
def Covered (net : RoadNetwork) (queue : List (List IntersectionId))
    (x : IntersectionId) (m : Nat) : Prop :=
  ∃ q ∈ queue, ∃ s : List IntersectionId,
    List.Chain' net.edge (q ++ s) ∧ (q ++ s).getLast? = some x ∧
    q.length + s.length ≤ m

/-- The BFS loop invariant tying a queue/visited state to the start and
target nodes (proof-internal). -/
structure BfsInv (net : RoadNetwork) (from_id to_id : IntersectionId)
    (queue : List (List IntersectionId)) (visited : List IntersectionId) :
    Prop where
  valid : ∀ q ∈ queue, q.head? = some from_id ∧ List.Chain' net.edge q
  lastVisited : ∀ q ∈ queue, ∀ l, q.getLast? = some l → l ∈ visited
  toNotVisited : to_id ∉ visited
  sorted : List.Sorted (· ≤ ·) (queue.map List.length)
  balanced : ∀ q1 ∈ queue, ∀ q2 ∈ queue, q1.length ≤ q2.length + 1
  closure : ∀ x ∈ visited,
    (∃ q ∈ queue, q.getLast? = some x) ∨ (∀ y, net.edge x y → y ∈ visited)
  minimal : ∀ q ∈ queue, ∀ l, q.getLast? = some l →
    ∀ p, net.isPath from_id l p → q.length ≤ p.length
  cover : ∀ x, x ∉ visited → ∀ p, net.isPath from_id x p →
    Covered net queue x p.length

/-! ## Concrete instances used by witnesses -/

/-- A three-node network: "A" → "B" → "C" plus a direct road "A" → "C",
built through `add_intersection`/`add_road` exactly as a client of
`RoadNetwork` would. -/
def egNet : RoadNetwork :=
  ((((((RoadNetwork.mk [] [] []).add_intersection
      { intersection_id := "A", position := ⟨0, 0⟩ }).add_intersection
      { intersection_id := "B", position := ⟨0, 1⟩ }).add_intersection
      { intersection_id := "C", position := ⟨0, 2⟩ }).add_road
      { road_id := "R-AB", from_intersection := "A", to_intersection := "B",
        num_cells := 4 }).add_road
      { road_id := "R-BC", from_intersection := "B", to_intersection := "C",
        num_cells := 4 }).add_road
      { road_id := "R-AC", from_intersection := "A", to_intersection := "C",
        num_cells := 4 }

/-- A two-phase NS plan (30 ticks GREEN, 5 ticks YELLOW). -/
def egPlan : SignalPlan :=
  ⟨[⟨{Direction.NORTH, Direction.SOUTH}, 30, SignalState.GREEN⟩,
    ⟨{Direction.NORTH, Direction.SOUTH}, 5, SignalState.YELLOW⟩]⟩

def egPhase0 : SignalPhase := ⟨{Direction.NORTH, Direction.SOUTH}, 30, SignalState.GREEN⟩

def egPhase1 : SignalPhase := ⟨{Direction.NORTH, Direction.SOUTH}, 5, SignalState.YELLOW⟩

def egController : FixedTimeController := mkFixedTimeController egPlan

def egIntersection : Intersection :=
  { intersection_id := "I-0-0", position := ⟨0, 0⟩ }

/-- A plan whose only phase has duration zero: its cycle length is zero. -/
def zeroPlan : SignalPlan := ⟨[⟨∅, 0, SignalState.GREEN⟩]⟩

/-- An emergency vehicle with a one-stop route. -/
def egVehicle : EmergencyVehicle :=
  { vehicle_id := "EV-1", origin := "I-0-0", destination := "I-0-1",
    route := ["I-0-1"] }

def egCar : Vehicle :=
  { vehicle_id := "V-1", origin := "I-0-0", destination := "I-0-1" }

/-- A four-cell road with one occupied cell. -/
def egRoad : Road :=
  { road_id := "R-0", from_intersection := "I-0-0", to_intersection := "I-0-1",
    num_cells := 4,
    cells := [⟨0, some egCar⟩, ⟨1, none⟩, ⟨2, none⟩, ⟨3, none⟩] }

/-- A manager that knows the controller of `"I-0-0"` and holds no active
preemption. -/
def egManager : PreemptionManager :=
  { controllers := [("I-0-0", egController)] }

def egEvent : EmergencyDetected :=
  { tick := 3, vehicle_id := "EV-1", intersection_id := "I-0-0",
    approach_direction := Direction.NORTH, distance_cells := 5 }

/-! ## Claim-level refinement definition for C2

This definition follows the words of the specification sentence (the
cumulative-duration search with the "first phase whose cumulative end
exceeds the offset wins" tie policy), to be compared against the
source-derived `phase_at_tick`. -/

/-- Cumulative duration ends of the phases, starting from `acc`. -/
def cumulativeEnds : List SignalPhase → Int → List Int
  | [], _ => []
  | p :: rest, acc => (acc + p.duration) :: cumulativeEnds rest (acc + p.duration)

/-- Modelled from the spec's words: the first phase in order whose
cumulative duration strictly exceeds the offset. -/
def firstExceeding (phases : List SignalPhase) (offset : Int) :
    Option SignalPhase :=
  ((phases.zip (cumulativeEnds phases 0)).find?
    (fun pc => decide (offset < pc.2))).map Prod.fst

/-! ## Dictionary lemmas -/

theorem dictGet_none_iff {V : Type} (l : List (IntersectionId × V))
    (k : IntersectionId) : dictGet l k = none ↔ k ∉ l.map Prod.fst := by
  induction l with
  | nil => simp [dictGet]
  | cons kv rest ih =>
    obtain ⟨k', v⟩ := kv
    by_cases hk : k' = k
    · simp [dictGet, hk]
    · simp only [dictGet, if_neg hk, List.map_cons, List.mem_cons]
      rw [ih]
      constructor
      · intro h hmem
        rcases hmem with h1 | h2
        · exact hk h1.symm
        · exact h h2
      · intro h hmem
        exact h (Or.inr hmem)

theorem dictPop_none {V : Type} (l : List (IntersectionId × V))
    (k : IntersectionId) (h : dictGet l k = none) : dictPop l k = (none, l) := by
  induction l with
  | nil => simp [dictPop]
  | cons kv rest ih =>
    obtain ⟨k', v⟩ := kv
    simp only [dictGet] at h
    by_cases hk : k' = k
    · rw [if_pos hk] at h; cases h
    · rw [if_neg hk] at h
      simp only [dictPop, if_neg hk, ih h]

theorem dictInsert_keys_of_absent {V : Type} (l : List (IntersectionId × V))
    (k : IntersectionId) (v : V) (h : dictGet l k = none) :
    (dictInsert l k v).map Prod.fst = l.map Prod.fst ++ [k] := by
  induction l with
  | nil => simp [dictInsert]
  | cons kv rest ih =>
    obtain ⟨k', v'⟩ := kv
    simp only [dictGet] at h
    by_cases hk : k' = k
    · rw [if_pos hk] at h; cases h
    · rw [if_neg hk] at h
      simp [dictInsert, if_neg hk, ih h]

/-! ## Bridge lemma for C2 -/

theorem phaseAtLoop_eq_firstExceeding (offset : Int) :
    ∀ (l : List SignalPhase) (acc : Int),
      phaseAtLoop offset l acc =
        ((l.zip (cumulativeEnds l acc)).find?
          (fun pc => decide (offset < pc.2))).map Prod.fst := by
  intro l
  induction l with
  | nil => intro acc; simp [phaseAtLoop, cumulativeEnds]
  | cons p rest ih =>
    intro acc
    simp only [phaseAtLoop, cumulativeEnds, List.zip_cons_cons, List.find?]
    by_cases hlt : offset < acc + p.duration
    · rw [if_pos hlt]
      simp [hlt]
    · rw [if_neg hlt]
      have : (decide (offset < acc + p.duration)) = false := by
        simpa using hlt
      rw [this]
      exact ih (acc + p.duration)

/-! ## Helper lemmas for the controller -/

theorem apply_phase_signal (i : Intersection) (phase : SignalPhase)
    (d : Direction) :
    (FixedTimeController.apply_phase i phase).signal_states d =
      if d ∈ phase.green_directions then phase.state else SignalState.RED := rfl

theorem apply_preemption_signal (i : Intersection) (d d' : Direction) :
    (FixedTimeController.apply_preemption i d).2.signal_states d' =
      if d' = d then SignalState.GREEN else SignalState.RED := rfl


theorem set_signal_all_red_eq_apply_phase (i : Intersection) (d : Direction) :
    (i.set_all_red).set_signal d SignalState.GREEN =
      FixedTimeController.apply_phase i
        ⟨{d}, 0, SignalState.GREEN⟩ := by
  simp only [Intersection.set_signal, Intersection.set_all_red,
    FixedTimeController.apply_phase]
  congr 1
  funext d'
  by_cases hd : d' = d <;> simp [hd]

/-- C1: after `FixedTimeController.update(intersection, tick)` returns,
the set of directions in state GREEN or YELLOW is exactly the
green-direction set of the returned authoritative phase, carrying that
phase's state, with all other directions RED; during preemption the
returned phase is exactly the single preempted direction forced GREEN,
and otherwise the returned phase is the plan's phase active at that tick.
(The hypothesis that the phase's state is not RED is the data-model
constraint that a phase's state tag is GREEN or YELLOW.) -/
theorem C1_signal_exclusivity (c : FixedTimeController) (i : Intersection)
    (tick : Tick) (phase : SignalPhase) (i' : Intersection)
    (h : c.update i tick = .ok (phase, i'))
    (hstate : phase.state ≠ SignalState.RED) :
    (∀ d, (i'.signal_states d = SignalState.GREEN ∨
           i'.signal_states d = SignalState.YELLOW) ↔
          d ∈ phase.green_directions) ∧
    (∀ d ∈ phase.green_directions, i'.signal_states d = phase.state) ∧
    (∀ d, d ∉ phase.green_directions → i'.signal_states d = SignalState.RED) ∧
    (∀ d0, c.preemption_active = true → c.preemption_direction = some d0 →
      phase.green_directions = {d0} ∧ phase.state = SignalState.GREEN) ∧
    ((c.preemption_active = false ∨ c.preemption_direction = none) →
      c.plan.phase_at_tick tick = .ok phase) := by
  have main :
      i' = FixedTimeController.apply_phase i phase ∧
      (∀ d0, c.preemption_active = true → c.preemption_direction = some d0 →
          phase.green_directions = {d0} ∧ phase.state = SignalState.GREEN) ∧
      ((c.preemption_active = false ∨ c.preemption_direction = none) →
          c.plan.phase_at_tick tick = .ok phase) := by
    cases hact : c.preemption_active <;> cases hdir : c.preemption_direction <;>
      simp only [FixedTimeController.update, hact, hdir] at h
    case false.none =>
      cases hp : c.plan.phase_at_tick tick <;> rw [hp] at h
      · cases h
      · simp only [Except.ok.injEq, Prod.mk.injEq] at h
        obtain ⟨rfl, rfl⟩ := h
        refine ⟨rfl, ?_, fun _ => rfl⟩
        intro d0 hcontra _
        exact Bool.noConfusion hcontra
    case false.some d =>
      cases hp : c.plan.phase_at_tick tick <;> rw [hp] at h
      · cases h
      · simp only [Except.ok.injEq, Prod.mk.injEq] at h
        obtain ⟨rfl, rfl⟩ := h
        refine ⟨rfl, ?_, fun _ => rfl⟩
        intro d0 hcontra _
        exact Bool.noConfusion hcontra
    case true.none =>
      cases hp : c.plan.phase_at_tick tick <;> rw [hp] at h
      · cases h
      · simp only [Except.ok.injEq, Prod.mk.injEq] at h
        obtain ⟨rfl, rfl⟩ := h
        refine ⟨rfl, ?_, fun _ => rfl⟩
        intro d0 _ hcontra
        exact Option.noConfusion hcontra
    case true.some d =>
      simp only [FixedTimeController.apply_preemption, Except.ok.injEq,
        Prod.mk.injEq] at h
      obtain ⟨hph, hi⟩ := h
      refine ⟨?_, ?_, ?_⟩
      · rw [← hi, ← hph]
        exact set_signal_all_red_eq_apply_phase i d
      · intro d0 _ hd0
        rw [← hph]
        cases hd0
        exact ⟨rfl, rfl⟩
      · intro hcontra
        rcases hcontra with h1 | h1 <;> cases h1
  obtain ⟨hi', hpre, hnorm⟩ := main
  subst hi'
  refine ⟨?_, ?_, ?_, hpre, hnorm⟩
  · intro d
    rw [apply_phase_signal]
    by_cases hd : d ∈ phase.green_directions
    · rw [if_pos hd]
      cases hs : phase.state
      · exact absurd hs hstate
      · simp [hd]
      · simp [hd]
    · rw [if_neg hd]
      simp [hd]
  · intro d hd
    rw [apply_phase_signal, if_pos hd]
  · intro d hd
    rw [apply_phase_signal, if_neg hd]

/-- Witness for C1: a concrete normal-mode update on the two-phase NS
plan at tick 5 yields the GREEN NS phase, and NORTH is non-RED exactly
because it is in the phase's green-direction set. -/
theorem C1_witness :
    egController.update egIntersection 5 =
      .ok (egPhase0, FixedTimeController.apply_phase egIntersection egPhase0) ∧
    (((FixedTimeController.apply_phase egIntersection egPhase0).signal_states
        Direction.NORTH = SignalState.GREEN ∨
      (FixedTimeController.apply_phase egIntersection egPhase0).signal_states
        Direction.NORTH = SignalState.YELLOW) ↔
      Direction.NORTH ∈ egPhase0.green_directions) :=
  ⟨by rfl,
   (C1_signal_exclusivity egController egIntersection 5 egPhase0
      (FixedTimeController.apply_phase egIntersection egPhase0) (by rfl)
      (by decide)).1 Direction.NORTH⟩

/-- Counterexample for C2 as stated: a non-empty plan whose single phase
has duration zero has cycle length zero, so `phase_at_tick` raises
`ZeroDivisionError` instead of returning a phase (neither the
cumulative-duration winner nor the last-phase fallback). -/
theorem C2_counterexample :
    zeroPlan.phases ≠ [] ∧
    zeroPlan.phase_at_tick 0 = .error "integer division or modulo by zero" := by
  constructor
  · decide
  · rfl

/-- C2 (amended with a non-zero cycle length): for every signal plan with
a non-empty phase list and non-zero cycle length, `phase_at_tick(T)`
returns the first phase in order whose cumulative duration strictly
exceeds `T mod cycle_length`, falling back to the last phase of the plan
when no cumulative end exceeds that offset. -/
theorem C2_phase_lookup (plan : SignalPlan) (tick : Tick)
    (hne : plan.phases ≠ []) (hcycle : plan.cycle_length ≠ 0) :
    plan.phase_at_tick tick = .ok
      ((firstExceeding plan.phases (Int.fmod tick plan.cycle_length)).getD
        (plan.phases.getLast hne)) := by
  unfold SignalPlan.phase_at_tick
  rw [dif_neg hne, if_neg hcycle]
  simp only [phaseAtLoop_eq_firstExceeding]
  unfold firstExceeding
  cases ((plan.phases.zip (cumulativeEnds plan.phases 0)).find?
      (fun pc => decide (Int.fmod tick plan.cycle_length < pc.2))) with
  | none => rfl
  | some pc => rfl

/-- Witness for C2: on the two-phase NS plan (cycle length 35), tick 31
has offset 31, which exceeds the first cumulative end 30, so the YELLOW
phase is returned. -/
theorem C2_witness : egPlan.phase_at_tick 31 = .ok egPhase1 := by
  have h := C2_phase_lookup egPlan 31 (by decide) (by decide)
  rw [h]
  rfl

/-- C3: requesting preemption and then releasing it restores the
controller to exactly the state of a freshly constructed controller on
the same plan, so the next `update` produces the same phase and the same
intersection signal states as a controller that never entered
preemption. -/
theorem C3_release_restores (c : FixedTimeController) (d : Direction)
    (i : Intersection) (tick : Tick) :
    ((c.request_preemption d).release_preemption = mkFixedTimeController c.plan) ∧
    (((c.request_preemption d).release_preemption).update i tick =
      (mkFixedTimeController c.plan).update i tick) :=
  ⟨rfl, rfl⟩

/-- Counterexample for C4 as stated: after `request_preemption(NORTH)`
followed by `request_preemption(SOUTH)`, `update` holds NORTH at RED,
whereas without the second call it holds NORTH at GREEN — so the second
request is not a no-op. -/
theorem C4_counterexample :
    ((((mkFixedTimeController egPlan).request_preemption
        Direction.NORTH).request_preemption Direction.SOUTH).update
        egIntersection 0).map (fun r => r.2.signal_states Direction.NORTH) =
      .ok SignalState.RED ∧
    (((mkFixedTimeController egPlan).request_preemption
        Direction.NORTH).update egIntersection 0).map
        (fun r => r.2.signal_states Direction.NORTH) =
      .ok SignalState.GREEN := ⟨rfl, rfl⟩

/-- C4 (amended): a second `request_preemption(d2)` while a preemption is
active replaces the preempted direction — the controller state equals
that after requesting `d2` alone, and every subsequent `update` holds
`d2` GREEN with all other directions RED (last request wins; at most one
direction is preempted at a time). -/
theorem C4_second_request_wins (c : FixedTimeController) (d1 d2 : Direction)
    (i : Intersection) (tick : Tick) :
    ((c.request_preemption d1).request_preemption d2 =
      c.request_preemption d2) ∧
    (((c.request_preemption d1).request_preemption d2).update i tick =
      .ok (⟨{d2}, 0, SignalState.GREEN⟩,
        (i.set_all_red).set_signal d2 SignalState.GREEN)) :=
  ⟨rfl, rfl⟩

/-- C5: the preemption manager ignores a detection at an
already-preempted intersection (no state change, no controller call, no
published event) and a detection whose intersection has no registered
controller; only a first detection at a not-yet-preempted intersection
with a known controller requests preemption on that controller, records
the single `ActivePreemption` entry, and publishes exactly one
`PreemptionStarted`; key uniqueness of the active map is preserved, so
at most one entry per intersection ever exists. -/
theorem C5_preemption_exclusivity (m : PreemptionManager)
    (e : EmergencyDetected) :
    (dictGet m.active e.intersection_id ≠ none →
      m.on_emergency_detected e = { manager := m }) ∧
    (dictGet m.active e.intersection_id = none →
      dictGet m.controllers e.intersection_id = none →
      m.on_emergency_detected e = { manager := m }) ∧
    (∀ controller, dictGet m.active e.intersection_id = none →
      dictGet m.controllers e.intersection_id = some controller →
      m.on_emergency_detected e =
        { manager :=
            { controllers :=
                dictInsert m.controllers e.intersection_id
                  (controller.request_preemption e.approach_direction)
              active :=
                dictInsert m.active e.intersection_id
                  { vehicle_id := e.vehicle_id
                    intersection_id := e.intersection_id
                    direction := e.approach_direction } }
          requested := [(e.intersection_id, e.approach_direction)]
          released := []
          published := [SimEvent.PreemptionStarted e.tick e.vehicle_id
            e.intersection_id e.approach_direction] }) ∧
    ((m.active.map Prod.fst).Nodup →
      ((m.on_emergency_detected e).manager.active.map Prod.fst).Nodup) := by
  refine ⟨?_, ?_, ?_, ?_⟩
  · intro hact
    cases hga : dictGet m.active e.intersection_id with
    | none => exact absurd hga hact
    | some a => simp only [PreemptionManager.on_emergency_detected, hga]
  · intro hact hctrl
    simp only [PreemptionManager.on_emergency_detected, hact, hctrl]
  · intro controller hact hctrl
    simp only [PreemptionManager.on_emergency_detected, hact, hctrl]
  · intro hnodup
    cases hga : dictGet m.active e.intersection_id with
    | some a =>
      simp only [PreemptionManager.on_emergency_detected, hga]
      exact hnodup
    | none =>
      cases hgc : dictGet m.controllers e.intersection_id with
      | none =>
        simp only [PreemptionManager.on_emergency_detected, hga, hgc]
        exact hnodup
      | some controller =>
        simp only [PreemptionManager.on_emergency_detected, hga, hgc]
        rw [dictInsert_keys_of_absent _ _ _ hga]
        rw [List.nodup_append]
        refine ⟨hnodup, List.nodup_singleton _, ?_⟩
        intro x hx hx1
        rw [List.mem_singleton] at hx1
        subst hx1
        exact (dictGet_none_iff _ _).mp hga hx

/-- Witness for C5: on a manager that knows the controller of "I-0-0"
and has no active preemption, a first detection there requests NORTH
preemption, records the entry, and publishes one PreemptionStarted. -/
theorem C5_witness :
    egManager.on_emergency_detected egEvent =
      { manager :=
          { controllers :=
              dictInsert egManager.controllers "I-0-0"
                (egController.request_preemption Direction.NORTH)
            active :=
              dictInsert egManager.active "I-0-0"
                { vehicle_id := "EV-1", intersection_id := "I-0-0",
                  direction := Direction.NORTH } }
        requested := [("I-0-0", Direction.NORTH)]
        released := []
        published := [SimEvent.PreemptionStarted 3 "EV-1" "I-0-0"
          Direction.NORTH] } :=
  (C5_preemption_exclusivity egManager egEvent).2.2.1 egController rfl rfl

/-- C6: releasing an intersection with no active preemption is a no-op:
the manager state is unchanged, no controller's `release_preemption` is
called, and no event is published (and the operation raises no error —
`release` is total). -/
theorem C6_release_noop (m : PreemptionManager) (intersection_id : IntersectionId)
    (tick : Tick) (h : dictGet m.active intersection_id = none) :
    m.release intersection_id tick = { manager := m } := by
  unfold PreemptionManager.release
  rw [dictPop_none _ _ h]

/-- Witness for C6: releasing the never-preempted intersection "I-9-9"
leaves the example manager untouched. -/
theorem C6_witness : egManager.release "I-9-9" 7 = { manager := egManager } :=
  C6_release_noop egManager "I-9-9" 7 rfl

/-- Counterexample for C7 as stated: constructing an empty signal plan
and a zero-cell road both succeed — neither is rejected at
construction/configuration time. -/
theorem C7_counterexample :
    mkSignalPlan [] = .ok { phases := [] } ∧
    mkRoad "R-0" "I-0-0" "I-0-1" 0 = .ok
      { road_id := "R-0", from_intersection := "I-0-0",
        to_intersection := "I-0-1", num_cells := 0, speed_limit := 1,
        cells := [] } :=
  ⟨rfl, rfl⟩

/-- C7 (amended): neither an empty signal plan nor a zero-cell road is
rejected at construction — both construct successfully; the empty plan
fails only at runtime, when any `phase_at_tick` call raises, and a
zero-cell road is a tolerated runtime state (empty cell list, occupancy
reported as 0). -/
theorem C7_no_construction_rejection :
    (∀ phases, mkSignalPlan phases = .ok { phases := phases }) ∧
    (∀ tick : Tick,
      (SignalPlan.mk []).phase_at_tick tick = .error "SignalPlan has no phases") ∧
    (∀ rid a b sl cells, ∃ r, mkRoad rid a b 0 sl cells = .ok r) ∧
    ((Road.mk "R-0" "I-0-0" "I-0-1" 0 1 []).occupancy = .ok 0) :=
  ⟨fun _ => rfl, fun _ => rfl, fun _ _ _ _ _ => ⟨_, rfl⟩, rfl⟩

/-- Counterexample for C9 as stated: advancing twice past the end of a
one-stop route drives `route_index` to 2, which exceeds the route length
1 (so the bound fails), and `next_intersection` is `None` although
`route_index ≠ len(route)` (so the "exactly when equal" condition fails
too). -/
theorem C9_counterexample :
    ¬ ((egVehicle.advance_route).advance_route).route_index ≤
        ((egVehicle.advance_route).advance_route).route.length ∧
    ((egVehicle.advance_route).advance_route).next_intersection = none ∧
    ((egVehicle.advance_route).advance_route).route_index ≠
      ((egVehicle.advance_route).advance_route).route.length := by
  refine ⟨?_, ?_, ?_⟩ <;> decide

/-- C9 (amended): `route_index` never decreases — each `advance_route`
call increments it by exactly one, so any sequence of `n` calls adds `n`
— but it is not bounded by the route length; `next_intersection` is
`None` exactly when `route_index ≥ len(route)` and is
`route[route_index]` whenever `route_index < len(route)`. -/
theorem C9_route_monotone (v : EmergencyVehicle) :
    (v.route_index ≤ (v.advance_route).route_index) ∧
    (∀ n : Nat,
      (EmergencyVehicle.advance_route^[n] v).route_index = v.route_index + n) ∧
    ((v.next_intersection = none) ↔ v.route.length ≤ v.route_index) ∧
    (∀ h : v.route_index < v.route.length,
      v.next_intersection = some (v.route.get ⟨v.route_index, h⟩)) := by
  refine ⟨Nat.le_succ _, ?_, ?_, ?_⟩
  · intro n
    induction n with
    | zero => rfl
    | succ k ih =>
      rw [Function.iterate_succ_apply']
      show (EmergencyVehicle.advance_route^[k] v).route_index + 1 = _
      omega
  · unfold EmergencyVehicle.next_intersection
    by_cases h : v.route_index < v.route.length
    · rw [dif_pos h]
      simp
      omega
    · rw [dif_neg h]
      simp
      omega
  · intro h
    unfold EmergencyVehicle.next_intersection
    rw [dif_pos h]

/-- Witness for C9: on the one-stop route, `next_intersection` is the
single stop "I-0-1" at index 0, and one advance does not decrease the
index. -/
theorem C9_witness :
    (egVehicle.route_index ≤ (egVehicle.advance_route).route_index) ∧
    egVehicle.next_intersection = some "I-0-1" :=
  ⟨(C9_route_monotone egVehicle).1, by
    have h := (C9_route_monotone egVehicle).2.2.2 (by decide)
    simpa using h⟩

/-- C10: `Road.occupancy` is total and never divides by zero — it
returns 0 when `num_cells == 0`, returns the occupied-cell count divided
by `num_cells` whenever `num_cells > 0`, and (under the road's
documented data-model invariant that the occupancy count never exceeds
the cell count) the result always lies in [0, 1]. -/
theorem C10_occupancy_safe (r : Road) :
    (∃ q, r.occupancy = .ok q) ∧
    (r.num_cells = 0 → r.occupancy = .ok 0) ∧
    (0 < r.num_cells →
      r.occupancy = .ok ((r.occupied_count : Rat) / (r.num_cells : Rat))) ∧
    ((r.occupied_count : Int) ≤ r.num_cells →
      ∀ q, r.occupancy = .ok q → 0 ≤ q ∧ q ≤ 1) := by
  unfold Road.occupancy pydiv
  by_cases hz : r.num_cells = 0
  · rw [if_pos hz]
    refine ⟨⟨0, rfl⟩, fun _ => rfl, fun hpos => absurd hz (by omega), ?_⟩
    intro _ q hq
    simp only [Except.ok.injEq] at hq
    subst hq
    norm_num
  · rw [if_neg hz]
    have hcast : ((r.num_cells : Rat) ≠ 0) := by
      exact_mod_cast hz
    rw [if_neg hcast]
    refine ⟨⟨_, rfl⟩, fun h0 => absurd h0 hz, fun _ => rfl, ?_⟩
    intro hle q hq
    simp only [Except.ok.injEq] at hq
    subst hq
    have hnum : (0 : Int) ≤ r.occupied_count := Int.ofNat_nonneg _
    have hpos : (0 : Int) < r.num_cells := by omega
    have hposr : (0 : Rat) < (r.num_cells : Rat) := by exact_mod_cast hpos
    constructor
    · apply div_nonneg _ (le_of_lt hposr)
      positivity
    · rw [div_le_one hposr]
      exact_mod_cast hle

/-- Witness for C10: a four-cell road with one occupied cell satisfies
the invariant hypothesis and its occupancy is a value in [0, 1]. -/
theorem C10_witness :
    ((egRoad.occupied_count : Int) ≤ egRoad.num_cells) ∧
    ∃ q, egRoad.occupancy = .ok q ∧ 0 ≤ q ∧ q ≤ 1 := by
  refine ⟨by decide, ?_⟩
  obtain ⟨q, hq⟩ := (C10_occupancy_safe egRoad).1
  exact ⟨q, hq, (C10_occupancy_safe egRoad).2.2.2 (by decide) q hq⟩

/-! ## List helpers for the BFS proofs -/

theorem getLast?_append_right {α : Type} (l1 l2 : List α) (h : l2 ≠ []) :
    (l1 ++ l2).getLast? = l2.getLast? := by
  rw [List.getLast?_append]
  cases hl : l2.getLast? with
  | none => exact absurd (List.getLast?_eq_none_iff.mp hl) h
  | some a => rfl

theorem head?_append_left {α : Type} (l1 l2 : List α) (a : α)
    (h : l1.head? = some a) : (l1 ++ l2).head? = some a := by
  rw [List.head?_append_of_ne_nil]
  · exact h
  · intro hh
    subst hh
    cases h

theorem ne_nil_of_head?_eq_some {α : Type} {l : List α} {a : α}
    (h : l.head? = some a) : l ≠ [] := by
  intro hh
  subst hh
  cases h

/-! ## Behaviour of one neighbor scan -/

theorem scanNeighbors_found (to_id : IntersectionId)
    (path : List IntersectionId) :
    ∀ (ns visited : List IntersectionId) (r : List IntersectionId),
      scanNeighbors to_id path ns visited = .found r →
      r = path ++ [to_id] ∧ to_id ∈ ns ∧ to_id ∉ visited := by
  intro ns
  induction ns with
  | nil =>
    intro visited r h
    cases h
  | cons n rest ih =>
    intro visited r h
    simp only [scanNeighbors] at h
    by_cases hv : n ∈ visited
    · rw [if_pos hv] at h
      obtain ⟨hr, hmem, hnv⟩ := ih visited r h
      exact ⟨hr, List.mem_cons_of_mem _ hmem, hnv⟩
    · rw [if_neg hv] at h
      by_cases hto : n = to_id
      · rw [if_pos hto] at h
        simp only [ScanResult.found.injEq] at h
        subst hto
        exact ⟨h.symm, List.mem_cons_self _ _, hv⟩
      · rw [if_neg hto] at h
        cases hrec : scanNeighbors to_id path rest (n :: visited) with
        | found p =>
          rw [hrec] at h
          simp only [ScanResult.found.injEq] at h
          obtain ⟨hr, hmem, hnv⟩ := ih (n :: visited) p hrec
          subst h
          refine ⟨hr, List.mem_cons_of_mem _ hmem, ?_⟩
          intro hc
          exact hnv (List.mem_cons_of_mem _ hc)
        | next v ps =>
          rw [hrec] at h
          cases h

theorem scanNeighbors_visited_mono (to_id : IntersectionId)
    (path : List IntersectionId) :
    ∀ (ns visited v : List IntersectionId) (ps : List (List IntersectionId)),
      scanNeighbors to_id path ns visited = .next v ps →
      ∀ x ∈ visited, x ∈ v := by
  intro ns
  induction ns with
  | nil =>
    intro visited v ps h
    simp only [scanNeighbors, ScanResult.next.injEq] at h
    obtain ⟨rfl, rfl⟩ := h
    exact fun x hx => hx
  | cons n rest ih =>
    intro visited v ps h
    simp only [scanNeighbors] at h
    by_cases hv : n ∈ visited
    · rw [if_pos hv] at h
      exact ih visited v ps h
    · rw [if_neg hv] at h
      by_cases hto : n = to_id
      · rw [if_pos hto] at h
        cases h
      · rw [if_neg hto] at h
        cases hrec : scanNeighbors to_id path rest (n :: visited) with
        | found p =>
          rw [hrec] at h
          cases h
        | next v' ps' =>
          rw [hrec] at h
          simp only [ScanResult.next.injEq] at h
          obtain ⟨rfl, rfl⟩ := h
          intro x hx
          exact ih (n :: visited) v' ps' hrec x (List.mem_cons_of_mem _ hx)

theorem scanNeighbors_to_not_in_v (to_id : IntersectionId)
    (path : List IntersectionId) :
    ∀ (ns visited v : List IntersectionId) (ps : List (List IntersectionId)),
      scanNeighbors to_id path ns visited = .next v ps →
      to_id ∉ visited → to_id ∉ v := by
  intro ns
  induction ns with
  | nil =>
    intro visited v ps h hto
    simp only [scanNeighbors, ScanResult.next.injEq] at h
    obtain ⟨rfl, rfl⟩ := h
    exact hto
  | cons n rest ih =>
    intro visited v ps h hto
    simp only [scanNeighbors] at h
    by_cases hv : n ∈ visited
    · rw [if_pos hv] at h
      exact ih visited v ps h hto
    · rw [if_neg hv] at h
      by_cases hn : n = to_id
      · rw [if_pos hn] at h
        cases h
      · rw [if_neg hn] at h
        cases hrec : scanNeighbors to_id path rest (n :: visited) with
        | found p =>
          rw [hrec] at h
          cases h
        | next v' ps' =>
          rw [hrec] at h
          simp only [ScanResult.next.injEq] at h
          obtain ⟨rfl, rfl⟩ := h
          refine ih (n :: visited) v' ps' hrec ?_
          intro hc
          rcases List.mem_cons.mp hc with h1 | h1
          · exact hn h1.symm
          · exact hto h1

theorem scanNeighbors_newPaths (to_id : IntersectionId)
    (path : List IntersectionId) :
    ∀ (ns visited v : List IntersectionId) (ps : List (List IntersectionId)),
      scanNeighbors to_id path ns visited = .next v ps →
      ∀ p' ∈ ps, ∃ n, p' = path ++ [n] ∧ n ∈ ns ∧ n ∉ visited ∧
        n ≠ to_id ∧ n ∈ v := by
  intro ns
  induction ns with
  | nil =>
    intro visited v ps h
    simp only [scanNeighbors, ScanResult.next.injEq] at h
    obtain ⟨rfl, rfl⟩ := h
    intro p' hp'
    cases hp'
  | cons n rest ih =>
    intro visited v ps h
    simp only [scanNeighbors] at h
    by_cases hv : n ∈ visited
    · rw [if_pos hv] at h
      intro p' hp'
      obtain ⟨n', hn'⟩ := ih visited v ps h p' hp'
      exact ⟨n', hn'.1, List.mem_cons_of_mem _ hn'.2.1, hn'.2.2.1,
        hn'.2.2.2.1, hn'.2.2.2.2⟩
    · rw [if_neg hv] at h
      by_cases hto : n = to_id
      · rw [if_pos hto] at h
        cases h
      · rw [if_neg hto] at h
        cases hrec : scanNeighbors to_id path rest (n :: visited) with
        | found p =>
          rw [hrec] at h
          cases h
        | next v' ps' =>
          rw [hrec] at h
          simp only [ScanResult.next.injEq] at h
          obtain ⟨rfl, rfl⟩ := h
          intro p' hp'
          rcases List.mem_cons.mp hp' with h1 | h1
          · refine ⟨n, h1, List.mem_cons_self _ _, hv, hto, ?_⟩
            exact scanNeighbors_visited_mono to_id path rest (n :: visited)
              v' ps' hrec n (List.mem_cons_self _ _)
          · obtain ⟨n', hn'⟩ := ih (n :: visited) v' ps' hrec p' h1
            refine ⟨n', hn'.1, List.mem_cons_of_mem _ hn'.2.1, ?_,
              hn'.2.2.2.1, hn'.2.2.2.2⟩
            intro hc
            exact hn'.2.2.1 (List.mem_cons_of_mem _ hc)

theorem scanNeighbors_pushes (to_id : IntersectionId)
    (path : List IntersectionId) :
    ∀ (ns visited v : List IntersectionId) (ps : List (List IntersectionId)),
      scanNeighbors to_id path ns visited = .next v ps →
      ∀ n ∈ ns, n ∉ visited →
        (path ++ [n]) ∈ ps ∧ n ∈ v ∧ n ≠ to_id := by
  intro ns
  induction ns with
  | nil =>
    intro visited v ps h n hn
    cases hn
  | cons n0 rest ih =>
    intro visited v ps h n hn hnv
    simp only [scanNeighbors] at h
    by_cases hv : n0 ∈ visited
    · rw [if_pos hv] at h
      rcases List.mem_cons.mp hn with h1 | h1
      · subst h1
        exact absurd hv hnv
      · exact ih visited v ps h n h1 hnv
    · rw [if_neg hv] at h
      by_cases hto : n0 = to_id
      · rw [if_pos hto] at h
        cases h
      · rw [if_neg hto] at h
        cases hrec : scanNeighbors to_id path rest (n0 :: visited) with
        | found p =>
          rw [hrec] at h
          cases h
        | next v' ps' =>
          rw [hrec] at h
          simp only [ScanResult.next.injEq] at h
          obtain ⟨rfl, rfl⟩ := h
          by_cases hne : n = n0
          · subst hne
            refine ⟨List.mem_cons_self _ _, ?_, hto⟩
            exact scanNeighbors_visited_mono to_id path rest (n :: visited)
              v' ps' hrec n (List.mem_cons_self _ _)
          · rcases List.mem_cons.mp hn with h1 | h1
            · exact absurd h1 hne
            · have hnv' : n ∉ n0 :: visited := by
                intro hc
                rcases List.mem_cons.mp hc with h2 | h2
                · exact hne h2
                · exact hnv h2
              obtain ⟨ha, hb, hc⟩ := ih (n0 :: visited) v' ps' hrec n h1 hnv'
              exact ⟨List.mem_cons_of_mem _ ha, hb, hc⟩

theorem scanNeighbors_v_cases (to_id : IntersectionId)
    (path : List IntersectionId) :
    ∀ (ns visited v : List IntersectionId) (ps : List (List IntersectionId)),
      scanNeighbors to_id path ns visited = .next v ps →
      ∀ x ∈ v, x ∈ visited ∨ (path ++ [x]) ∈ ps := by
  intro ns
  induction ns with
  | nil =>
    intro visited v ps h x hx
    simp only [scanNeighbors, ScanResult.next.injEq] at h
    obtain ⟨rfl, rfl⟩ := h
    exact Or.inl hx
  | cons n rest ih =>
    intro visited v ps h x hx
    simp only [scanNeighbors] at h
    by_cases hv : n ∈ visited
    · rw [if_pos hv] at h
      exact ih visited v ps h x hx
    · rw [if_neg hv] at h
      by_cases hto : n = to_id
      · rw [if_pos hto] at h
        cases h
      · rw [if_neg hto] at h
        cases hrec : scanNeighbors to_id path rest (n :: visited) with
        | found p =>
          rw [hrec] at h
          cases h
        | next v' ps' =>
          rw [hrec] at h
          simp only [ScanResult.next.injEq] at h
          obtain ⟨rfl, rfl⟩ := h
          rcases ih (n :: visited) v' ps' hrec x hx with h1 | h1
          · rcases List.mem_cons.mp h1 with h2 | h2
            · subst h2
              exact Or.inr (List.mem_cons_self _ _)
            · exact Or.inl h2
          · exact Or.inr (List.mem_cons_of_mem _ h1)

theorem scanNeighbors_ns_in_v (to_id : IntersectionId)
    (path : List IntersectionId) (ns visited v : List IntersectionId)
    (ps : List (List IntersectionId))
    (h : scanNeighbors to_id path ns visited = .next v ps) :
    ∀ n ∈ ns, n ∈ v := by
  intro n hn
  by_cases hv : n ∈ visited
  · exact scanNeighbors_visited_mono to_id path ns visited v ps h n hv
  · exact (scanNeighbors_pushes to_id path ns visited v ps h n hn hv).2.1

/-- Cover maintenance across one BFS step: any chain that leaves the
dequeued path's territory towards a node that is still unvisited after
the scan can be re-anchored at a path of the new queue without growing
the node budget. -/
theorem bfs_cover_step (net : RoadNetwork) (from_id to_id : IntersectionId)
    (path : List IntersectionId) (rest : List (List IntersectionId))
    (visited v : List IntersectionId) (ps : List (List IntersectionId))
    (hscan : scanNeighbors to_id path
      (net.neighbors (path.getLast?.getD "")) visited = .next v ps)
    (hvalid : ∀ q ∈ path :: rest,
      q.head? = some from_id ∧ List.Chain' net.edge q)
    (hminimal : ∀ q ∈ path :: rest, ∀ l, q.getLast? = some l →
      ∀ p, net.isPath from_id l p → q.length ≤ p.length)
    (hclosure : ∀ x ∈ visited,
      (∃ q ∈ path :: rest, q.getLast? = some x) ∨
      (∀ y, net.edge x y → y ∈ visited))
    (hvsub : ∀ x ∈ visited, x ∈ v) :
    ∀ (s pre : List IntersectionId) (x : IntersectionId) (m : Nat),
      pre.head? = some from_id →
      List.Chain' net.edge pre →
      List.Chain' net.edge (pre ++ s) →
      (∀ l, pre.getLast? = some l → l ∈ visited) →
      (pre ++ s).getLast? = some x →
      pre.length + s.length ≤ m →
      x ∉ v →
      Covered net (rest ++ ps) x m := by
  intro s
  induction s with
  | nil =>
    intro pre x m hpre _ _ hprelast hlast _ hx
    rw [List.append_nil] at hlast
    exact absurd (hvsub x (hprelast x hlast)) hx
  | cons n s' ih =>
    intro pre x m hpre hchainpre hchain hprelast hlast hlen hx
    have hprene : pre ≠ [] := ne_nil_of_head?_eq_some hpre
    obtain ⟨l, hgl⟩ : ∃ l, pre.getLast? = some l :=
      ⟨pre.getLast hprene, List.getLast?_eq_getLast pre hprene⟩
    have hchain' := hchain
    rw [List.chain'_append] at hchain'
    obtain ⟨_, hchains, hjunction⟩ := hchain'
    have hedge : net.edge l n :=
      hjunction l (Option.mem_def.mpr hgl) n (Option.mem_def.mpr rfl)
    have hlv : l ∈ visited := hprelast l hgl
    by_cases hnv : n ∈ visited
    · -- the next node along the chain is already visited: extend the
      -- anchored prefix by one node and recurse on the shorter suffix
      have hassoc : (pre ++ [n]) ++ s' = pre ++ n :: s' := by
        rw [List.append_assoc]
        rfl
      refine ih (pre ++ [n]) x m ?_ ?_ ?_ ?_ ?_ ?_ hx
      · exact head?_append_left pre [n] from_id hpre
      · have := hchain
        rw [← hassoc, List.chain'_append] at this
        exact this.1
      · rw [hassoc]
        exact hchain
      · intro l' hl'
        rw [getLast?_append_right pre [n] (by simp)] at hl'
        simp only [List.getLast?_singleton, Option.some.injEq] at hl'
        subst hl'
        exact hnv
      · rw [hassoc]
        exact hlast
      · simp only [List.length_append, List.length_singleton,
          List.length_cons, List.length_nil] at hlen ⊢
        omega
    · -- the next node is unvisited, so the anchor node l must still be
      -- the endpoint of some queue path
      have hq : ∃ q ∈ path :: rest, q.getLast? = some l := by
        rcases hclosure l hlv with h1 | h1
        · exact h1
        · exact absurd (h1 n hedge) hnv
      obtain ⟨qz, hqz, hqzlast⟩ := hq
      have hpathlen : qz.length ≤ pre.length :=
        hminimal qz hqz l hqzlast pre ⟨hpre, hgl, hchainpre⟩
      rcases List.mem_cons.mp hqz with hqzpath | hqzrest
      · -- l is the endpoint of the dequeued path itself: the scan pushed
        -- path ++ [n], which anchors the remaining suffix
        rw [hqzpath] at hqzlast hpathlen
        have hns : n ∈ net.neighbors (path.getLast?.getD "") := by
          rw [hqzlast]
          exact hedge
        obtain ⟨hpush, hnvv, _⟩ :=
          scanNeighbors_pushes to_id path _ visited v ps hscan n hns hnv
        have hs'ne : s' ≠ [] := by
          intro hs'
          subst hs'
          rw [getLast?_append_right pre [n] (by simp)] at hlast
          simp only [List.getLast?_singleton, Option.some.injEq] at hlast
          subst hlast
          exact hx hnvv
        refine ⟨path ++ [n], List.mem_append_right _ hpush, s', ?_, ?_, ?_⟩
        · have hassoc2 : (path ++ [n]) ++ s' = path ++ n :: s' := by
            rw [List.append_assoc]
            rfl
          rw [hassoc2, List.chain'_append]
          refine ⟨(hvalid path (List.mem_cons_self _ _)).2, hchains, ?_⟩
          intro a ha b hb
          rw [Option.mem_def] at ha hb
          rw [hqzlast] at ha
          simp only [Option.some.injEq] at ha
          simp only [List.head?_cons, Option.some.injEq] at hb
          subst ha
          subst hb
          exact hedge
        · rw [getLast?_append_right (path ++ [n]) s' hs'ne]
          rw [getLast?_append_right pre (n :: s') (by simp)] at hlast
          rw [show (n :: s') = [n] ++ s' from rfl,
            getLast?_append_right [n] s' hs'ne] at hlast
          exact hlast
        · simp only [List.length_append, List.length_singleton,
            List.length_cons, List.length_nil] at hlen ⊢
          omega
      · -- l is the endpoint of a path still in the queue: anchor there
        refine ⟨qz, List.mem_append_left _ hqzrest, n :: s', ?_, ?_, ?_⟩
        · rw [List.chain'_append]
          refine ⟨(hvalid qz hqz).2, hchains, ?_⟩
          intro a ha b hb
          rw [Option.mem_def] at ha hb
          rw [hqzlast] at ha
          simp only [Option.some.injEq] at ha
          simp only [List.head?_cons, Option.some.injEq] at hb
          subst ha
          subst hb
          exact hedge
        · rw [getLast?_append_right qz (n :: s') (by simp)]
          rw [getLast?_append_right pre (n :: s') (by simp)] at hlast
          exact hlast
        · simp only [List.length_append, List.length_cons,
            List.length_nil] at hlen ⊢
          omega

/-- One `.next` BFS step preserves the loop invariant. -/
theorem bfs_inv_step (net : RoadNetwork) (from_id to_id : IntersectionId)
    (path : List IntersectionId) (rest : List (List IntersectionId))
    (visited v : List IntersectionId) (ps : List (List IntersectionId))
    (hscan : scanNeighbors to_id path
      (net.neighbors (path.getLast?.getD "")) visited = .next v ps)
    (inv : BfsInv net from_id to_id (path :: rest) visited) :
    BfsInv net from_id to_id (rest ++ ps) v := by
  have hvsub : ∀ x ∈ visited, x ∈ v :=
    scanNeighbors_visited_mono to_id path _ visited v ps hscan
  have hpathvalid := inv.valid path (List.mem_cons_self _ _)
  have hpathne : path ≠ [] := ne_nil_of_head?_eq_some hpathvalid.1
  obtain ⟨lp, hlp⟩ : ∃ lp, path.getLast? = some lp :=
    ⟨path.getLast hpathne, List.getLast?_eq_getLast path hpathne⟩
  have hnew := scanNeighbors_newPaths to_id path _ visited v ps hscan
  have hpslen : ∀ p' ∈ ps, p'.length = path.length + 1 := by
    intro p' hp'
    obtain ⟨n, hn, _⟩ := hnew p' hp'
    rw [hn]
    simp
  have hsortpair : (∀ a ∈ rest, path.length ≤ a.length) ∧
      List.Sorted (· ≤ ·) (List.map List.length rest) := by
    simpa using inv.sorted
  have hsortedhead : ∀ q ∈ rest, path.length ≤ q.length := hsortpair.1
  have hedge_of_ns : ∀ n ∈ net.neighbors (path.getLast?.getD ""),
      net.edge lp n := by
    intro n hn
    rw [hlp] at hn
    exact hn
  refine ⟨?_, ?_, ?_, ?_, ?_, ?_, ?_, ?_⟩
  · -- valid
    intro q hq
    rcases List.mem_append.mp hq with hql | hqr
    · exact inv.valid q (List.mem_cons_of_mem _ hql)
    · obtain ⟨n, rfl, hn, _, _, _⟩ := hnew q hqr
      refine ⟨head?_append_left path [n] from_id hpathvalid.1, ?_⟩
      rw [List.chain'_append]
      refine ⟨hpathvalid.2, List.chain'_singleton n, ?_⟩
      intro a ha b hb
      rw [Option.mem_def] at ha hb
      rw [hlp] at ha
      simp only [Option.some.injEq] at ha
      simp only [List.head?_cons, Option.some.injEq] at hb
      subst ha
      subst hb
      exact hedge_of_ns n hn
  · -- lastVisited
    intro q hq l hl
    rcases List.mem_append.mp hq with hql | hqr
    · exact hvsub l (inv.lastVisited q (List.mem_cons_of_mem _ hql) l hl)
    · obtain ⟨n, rfl, _, _, _, hnvv⟩ := hnew q hqr
      rw [getLast?_append_right path [n] (by simp)] at hl
      simp only [List.getLast?_singleton, Option.some.injEq] at hl
      subst hl
      exact hnvv
  · -- toNotVisited
    exact scanNeighbors_to_not_in_v to_id path _ visited v ps hscan
      inv.toNotVisited
  · -- sorted
    rw [List.map_append]
    rw [List.Sorted, List.pairwise_append]
    refine ⟨hsortpair.2, ?_, ?_⟩
    · apply List.pairwise_of_forall_mem_list
      intro a ha b hb
      obtain ⟨pa, hpa, rfl⟩ := List.mem_map.mp ha
      obtain ⟨pb, hpb, rfl⟩ := List.mem_map.mp hb
      rw [hpslen pa hpa, hpslen pb hpb]
    · intro a ha b hb
      obtain ⟨qa, hqa, rfl⟩ := List.mem_map.mp ha
      obtain ⟨qb, hqb, rfl⟩ := List.mem_map.mp hb
      rw [hpslen qb hqb]
      have := inv.balanced qa (List.mem_cons_of_mem _ hqa) path
        (List.mem_cons_self _ _)
      omega
  · -- balanced
    intro q1 hq1 q2 hq2
    rcases List.mem_append.mp hq1 with h1 | h1 <;>
      rcases List.mem_append.mp hq2 with h2 | h2
    · exact inv.balanced q1 (List.mem_cons_of_mem _ h1) q2
        (List.mem_cons_of_mem _ h2)
    · have := inv.balanced q1 (List.mem_cons_of_mem _ h1) path
        (List.mem_cons_self _ _)
      rw [hpslen q2 h2]
      omega
    · rw [hpslen q1 h1]
      have := hsortedhead q2 h2
      omega
    · rw [hpslen q1 h1, hpslen q2 h2]
      omega
  · -- closure
    intro x hxv
    rcases scanNeighbors_v_cases to_id path _ visited v ps hscan x hxv with
      hxvis | hxps
    · rcases inv.closure x hxvis with ⟨q, hq, hql⟩ | hclosed
      · rcases List.mem_cons.mp hq with hqp | hqr
        · right
          intro y hy
          rw [hqp] at hql
          have hyns : y ∈ net.neighbors (path.getLast?.getD "") := by
            rw [hql]
            have : lp = x := by
              rw [hlp] at hql
              exact (Option.some.injEq _ _).mp hql
            rw [← this] at hy ⊢
            exact hy
          exact scanNeighbors_ns_in_v to_id path _ visited v ps hscan y hyns
        · exact Or.inl ⟨q, List.mem_append_left _ hqr, hql⟩
      · right
        intro y hy
        exact hvsub y (hclosed y hy)
    · left
      refine ⟨path ++ [x], List.mem_append_right _ hxps, ?_⟩
      rw [getLast?_append_right path [x] (by simp)]
      rfl
  · -- minimal
    intro q hq l hl p hp
    rcases List.mem_append.mp hq with hql | hqr
    · exact inv.minimal q (List.mem_cons_of_mem _ hql) l hl p hp
    · obtain ⟨n, rfl, hn, hnvis, _, _⟩ := hnew q hqr
      rw [getLast?_append_right path [n] (by simp)] at hl
      simp only [List.getLast?_singleton, Option.some.injEq] at hl
      subst hl
      by_contra hlt
      push_neg at hlt
      obtain ⟨q', hq', s, _, hlastq, hlenq⟩ := inv.cover n hnvis p hp
      have hsne : s ≠ [] := by
        intro hs
        subst hs
        rw [List.append_nil] at hlastq
        exact hnvis (inv.lastVisited q' hq' n hlastq)
      have hslen : 1 ≤ s.length := by
        cases s with
        | nil => exact absurd rfl hsne
        | cons a t => simp
      have hq'ge : path.length ≤ q'.length := by
        rcases List.mem_cons.mp hq' with h' | h'
        · rw [h']
        · exact hsortedhead q' h'
      simp only [List.length_append, List.length_singleton] at hlt
      omega
  · -- cover
    intro x hxv p hp
    have hxvis : x ∉ visited := fun hc => hxv (hvsub x hc)
    obtain ⟨q, hq, s, hchain, hlast, hlen⟩ := inv.cover x hxvis p hp
    rcases List.mem_cons.mp hq with hqp | hqr
    · rw [hqp] at hchain hlast hlen
      exact bfs_cover_step net from_id to_id path rest visited v ps hscan
        inv.valid inv.minimal inv.closure hvsub s path x p.length
        hpathvalid.1 hpathvalid.2 hchain
        (inv.lastVisited path (List.mem_cons_self _ _)) hlast hlen hxv
    · exact ⟨q, List.mem_append_left _ hqr, s, hchain, hlast, hlen⟩

/-- Full correctness of the BFS loop under the invariant: an empty result
means no path exists, and a non-empty result is a valid path from
`from_id` to `to_id` of minimal node count. -/
theorem bfsLoop_correct (net : RoadNetwork) (from_id to_id : IntersectionId)
    (queue : List (List IntersectionId)) (visited : List IntersectionId) :
    BfsInv net from_id to_id queue visited →
    (bfsLoop net to_id queue visited = [] →
      ∀ p, ¬ net.isPath from_id to_id p) ∧
    (bfsLoop net to_id queue visited ≠ [] →
      net.isPath from_id to_id (bfsLoop net to_id queue visited) ∧
      ∀ p, net.isPath from_id to_id p →
        (bfsLoop net to_id queue visited).length ≤ p.length) := by
  induction queue, visited using bfsLoop.induct net to_id with
  | case1 visited =>
    intro inv
    constructor
    · intro _ p hp
      obtain ⟨q, hq, _⟩ := inv.cover to_id inv.toNotVisited p hp
      cases hq
    · intro hne
      exact absurd (by simp [bfsLoop]) hne
  | case2 path rest visited p hfound =>
    intro inv
    have hres : bfsLoop net to_id (path :: rest) visited = p := by
      simp only [bfsLoop]
      split
      · rename_i p' heq
        rw [hfound] at heq
        injection heq with h
        exact h.symm
      · rename_i v' ps' heq
        rw [hfound] at heq
        exact ScanResult.noConfusion heq
    obtain ⟨hr, hto_ns, _⟩ :=
      scanNeighbors_found to_id path _ visited p hfound
    have hpathvalid := inv.valid path (List.mem_cons_self _ _)
    have hpathne : path ≠ [] := ne_nil_of_head?_eq_some hpathvalid.1
    obtain ⟨lp, hlp⟩ : ∃ lp, path.getLast? = some lp :=
      ⟨path.getLast hpathne, List.getLast?_eq_getLast path hpathne⟩
    have hedge : net.edge lp to_id := by
      rw [hlp] at hto_ns
      exact hto_ns
    have hsortpair : (∀ a ∈ rest, path.length ≤ a.length) ∧
        List.Sorted (· ≤ ·) (List.map List.length rest) := by
      simpa using inv.sorted
    subst hr
    have hpathOK : net.isPath from_id to_id (path ++ [to_id]) := by
      refine ⟨head?_append_left path [to_id] from_id hpathvalid.1, ?_, ?_⟩
      · rw [getLast?_append_right path [to_id] (by simp)]
        rfl
      · rw [List.chain'_append]
        refine ⟨hpathvalid.2, List.chain'_singleton _, ?_⟩
        intro a ha b hb
        rw [Option.mem_def] at ha hb
        rw [hlp] at ha
        simp only [Option.some.injEq] at ha
        simp only [List.head?_cons, Option.some.injEq] at hb
        subst ha
        subst hb
        exact hedge
    have hmin : ∀ pp, net.isPath from_id to_id pp →
        (path ++ [to_id]).length ≤ pp.length := by
      intro pp hpp
      obtain ⟨q, hq, s, _, hlastq, hlenq⟩ :=
        inv.cover to_id inv.toNotVisited pp hpp
      have hsne : s ≠ [] := by
        intro hs
        subst hs
        rw [List.append_nil] at hlastq
        exact inv.toNotVisited (inv.lastVisited q hq to_id hlastq)
      have hslen : 1 ≤ s.length := by
        cases s with
        | nil => exact absurd rfl hsne
        | cons a t => simp
      have hpq : path.length ≤ q.length := by
        rcases List.mem_cons.mp hq with h' | h'
        · rw [h']
        · exact hsortpair.1 q h'
      simp only [List.length_append, List.length_singleton]
      omega
    rw [hres]
    constructor
    · intro hc
      simp at hc
    · intro _
      exact ⟨hpathOK, hmin⟩
  | case3 path rest visited v ps hnext ih =>
    intro inv
    have hres : bfsLoop net to_id (path :: rest) visited =
        bfsLoop net to_id (rest ++ ps) v := by
      simp only [bfsLoop]
      split
      · rename_i p' heq
        rw [hnext] at heq
        exact ScanResult.noConfusion heq
      · rename_i v' ps' heq
        rw [hnext] at heq
        injection heq with h1 h2
        rw [h1, h2]
    rw [hres]
    exact ih (bfs_inv_step net from_id to_id path rest visited v ps hnext inv)

/-- The BFS initial state `([[from_id]], {from_id})` satisfies the loop
invariant when the endpoints differ. -/
theorem bfs_inv_init (net : RoadNetwork) (from_id to_id : IntersectionId)
    (hne : from_id ≠ to_id) :
    BfsInv net from_id to_id [[from_id]] [from_id] := by
  refine ⟨?_, ?_, ?_, ?_, ?_, ?_, ?_, ?_⟩
  · intro q hq
    rw [List.mem_singleton] at hq
    subst hq
    exact ⟨rfl, List.chain'_singleton _⟩
  · intro q hq l hl
    rw [List.mem_singleton] at hq
    subst hq
    simp only [List.getLast?_singleton, Option.some.injEq] at hl
    subst hl
    exact List.mem_singleton_self _
  · intro hc
    rw [List.mem_singleton] at hc
    exact hne hc.symm
  · simp
  · intro q1 hq1 q2 hq2
    rw [List.mem_singleton] at hq1 hq2
    subst hq1
    subst hq2
    simp
  · intro x hx
    rw [List.mem_singleton] at hx
    subst hx
    exact Or.inl ⟨[x], List.mem_singleton_self _, rfl⟩
  · intro q hq l hl p hp
    rw [List.mem_singleton] at hq
    subst hq
    have hpne : p ≠ [] := ne_nil_of_head?_eq_some hp.1
    cases p with
    | nil => exact absurd rfl hpne
    | cons a t => simp
  · intro x hx p hp
    obtain ⟨hph, hpl, hpc⟩ := hp
    cases p with
    | nil => cases hph
    | cons a t =>
      simp only [List.head?_cons, Option.some.injEq] at hph
      subst hph
      exact ⟨[a], List.mem_singleton_self _, t, hpc, hpl, by
        simp only [List.length_singleton, List.length_cons, List.length_nil]
        omega⟩

/-- Step equation of `bfsLoop` when the neighbor scan finds the target. -/
theorem bfsLoop_found_eq (net : RoadNetwork) (to_id : IntersectionId)
    (path : List IntersectionId) (rest : List (List IntersectionId))
    (visited p : List IntersectionId)
    (h : scanNeighbors to_id path
      (net.neighbors (path.getLast?.getD "")) visited = .found p) :
    bfsLoop net to_id (path :: rest) visited = p := by
  simp only [bfsLoop]
  split
  · rename_i p' heq
    rw [h] at heq
    injection heq with h1
    exact h1.symm
  · rename_i v' ps' heq
    rw [h] at heq
    exact ScanResult.noConfusion heq

/-- C8: `shortest_path` returns `[from_id]` when the endpoints coincide;
when they differ, the result is empty exactly when no directed path
exists in the network, and a non-empty result is itself a path of the
network from `from_id` to `to_id` (every consecutive pair joined by a
road, following the adjacency structure) of minimal hop count among all
such paths.  Which minimal path is returned is deterministic, fixed by
the BFS queue discipline and adjacency-list scan order. -/
theorem C8_shortest_path (net : RoadNetwork) (from_id to_id : IntersectionId) :
    (from_id = to_id → net.shortest_path from_id to_id = [from_id]) ∧
    (net.shortest_path from_id to_id = [] ↔
      ¬ ∃ p, net.isPath from_id to_id p) ∧
    (net.shortest_path from_id to_id ≠ [] →
      net.isPath from_id to_id (net.shortest_path from_id to_id) ∧
      ∀ p, net.isPath from_id to_id p →
        (net.shortest_path from_id to_id).length ≤ p.length) := by
  by_cases heq : from_id = to_id
  · subst heq
    have hres : net.shortest_path from_id from_id = [from_id] := by
      simp [RoadNetwork.shortest_path]
    refine ⟨fun _ => hres, ?_, ?_⟩
    · rw [hres]
      constructor
      · intro hc
        cases hc
      · intro hc
        exact absurd ⟨[from_id], rfl, rfl, List.chain'_singleton _⟩ hc
    · intro _
      rw [hres]
      refine ⟨⟨rfl, rfl, List.chain'_singleton _⟩, ?_⟩
      intro p hp
      have hpne : p ≠ [] := ne_nil_of_head?_eq_some hp.1
      cases p with
      | nil => exact absurd rfl hpne
      | cons a t => simp
  · have hres : net.shortest_path from_id to_id =
        bfsLoop net to_id [[from_id]] [from_id] := by
      simp [RoadNetwork.shortest_path, heq]
    have hc := bfsLoop_correct net from_id to_id [[from_id]] [from_id]
      (bfs_inv_init net from_id to_id heq)
    rw [hres]
    refine ⟨fun h => absurd h heq, ?_, hc.2⟩
    constructor
    · intro h hex
      obtain ⟨p, hp⟩ := hex
      exact hc.1 h p hp
    · intro hnone
      by_contra hne2
      obtain ⟨hpath, _⟩ := hc.2 hne2
      exact hnone ⟨_, hpath⟩

/-- Witness for C8: on the three-node network A → B → C with a direct
road A → C, the BFS returns the one-hop path ["A", "C"], which is a path
of the network and minimal among all paths from "A" to "C". -/
theorem C8_witness :
    egNet.shortest_path "A" "C" = ["A", "C"] ∧
    egNet.isPath "A" "C" (egNet.shortest_path "A" "C") ∧
    ∀ p, egNet.isPath "A" "C" p →
      (egNet.shortest_path "A" "C").length ≤ p.length := by
  have hne : ("A" : IntersectionId) ≠ "C" := by decide
  have hscan : scanNeighbors "C" ["A"]
      (egNet.neighbors ((["A"] : List IntersectionId).getLast?.getD ""))
      ["A"] = .found ["A", "C"] := by rfl
  have hres : egNet.shortest_path "A" "C" = ["A", "C"] := by
    rw [RoadNetwork.shortest_path, if_neg hne]
    exact bfsLoop_found_eq egNet "C" ["A"] [] ["A"] ["A", "C"] hscan
  have h := (C8_shortest_path egNet "A" "C").2.2 (by rw [hres]; simp)
  exact ⟨hres, h.1, h.2⟩
